import Mathlib

/-!
Shallow embedding of the file-backed chat relay (`index.js` of the chat
service): the two JSON stores (email→username mapping and the message log),
the HTTP handlers `GET /api/user`, `POST /api/set-username`,
`GET /api/messages`, and the socket handlers (connection admission,
`sendMessage`, disconnect).  State is passed explicitly; the event loop is a
step function over an operation list; fallible JSON parsing is an `Option`.
-/

namespace RenderChat

/-- A JSON body value as far as the handlers inspect it: either a string, or
some other value of which only the JS truthiness is relevant. -/
inductive JsVal where
  | vstr (s : String)
  | vother (truthy : Bool)
deriving DecidableEq, Repr

/-- Whether `typeof v === 'string'` holds for an optional JS value. -/
def isString : Option JsVal → Bool
  | some (JsVal.vstr _) => true
  | _ => false

/-- JS truthiness of an optional value: `undefined` and `""` are falsy. -/
def jsTruthy : Option JsVal → Bool
  | none => false
  | some (JsVal.vstr s) => !(s == "")
  | some (JsVal.vother b) => b

/-- The users.json store: a JS object mapping email keys to display names,
modelled as an association list with at most one binding per key. -/
abbrev Users := List (String × String)

/-- Object property read `users[email]` (`none` plays `undefined`). -/
def Users.lookup : Users → String → Option String
  | [], _ => none
  | (k, v) :: rest, e => if k = e then some v else Users.lookup rest e

/-- Object property write `users[email] = username`: overwrite the existing
binding in place, or append a fresh one. -/
def Users.set : Users → String → String → Users
  | [], e, n => [(e, n)]
  | (k, v) :: rest, e, n =>
    if k = e then (e, n) :: rest else (k, v) :: Users.set rest e n

/-- One chat message record, as built by the `sendMessage` handler. -/
structure Msg where
  sender : String
  email : String
  text : String
  ts : Nat
deriving DecidableEq, Repr

/-- A persisted JSON file: either a document that parses to `v`, or a
malformed/unreadable file.  `readJSON` returns `null` on the latter. -/
inductive JFile (α : Type) where
  | good (v : α)
  | malformed
deriving DecidableEq, Repr

/-- `readJSON(p)`: `JSON.parse` of the file, `null` (here `none`) when the
parse throws. -/
def readJSON {α : Type} : JFile α → Option α
  | JFile.good v => some v
  | JFile.malformed => none

/-- An admitted socket connection with the identity bound at admission. -/
structure Conn where
  cid : Nat
  email : String
  username : String
deriving DecidableEq, Repr

/-- The server's state: the two JSON files plus the set of admitted
real-time connections (in admission order). -/
structure ServerState where
  usersFile : JFile Users
  messagesFile : JFile (List Msg)
  connected : List Conn
deriving DecidableEq, Repr

/-- Startup state: both data files are created holding `{}` and `[]`. -/
def initState : ServerState :=
  { usersFile := JFile.good [], messagesFile := JFile.good [], connected := [] }

/-- `readJSON(USERS_FILE) || {}`. -/
def viewUsers (st : ServerState) : Users := (readJSON st.usersFile).getD []

/-- `readJSON(MESSAGES_FILE) || []`. -/
def viewMsgs (st : ServerState) : List Msg := (readJSON st.messagesFile).getD []

/-- The authenticated request context: `req.user.emails[0].value` and
`req.user.displayName`.  `none` at the call site plays an absent or
email-less `req.user`. -/
structure AuthCtx where
  email : String
  displayName : Option String
deriving DecidableEq, Repr

/-- Response of `GET /api/user`. -/
inductive UserResp where
  | unauthenticated
  | userInfo (email : String) (name : Option String) (username : Option String)
deriving DecidableEq, Repr

/-- `users[email] || null`: a falsy stored value is reported as `null`. -/
def jsOrNull : Option String → Option String
  | some s => if s = "" then none else some s
  | none => none

/-- `GET /api/user`: report the authenticated email, display name, and the
stored username for that email (nullable). -/
def getCurrentUser (st : ServerState) (ctx : Option AuthCtx) : UserResp :=
  match ctx with
  | none => UserResp.unauthenticated
  | some c =>
    let users := viewUsers st
    UserResp.userInfo c.email c.displayName (jsOrNull (Users.lookup users c.email))

/-- Response of `POST /api/set-username`: 401, 400, or `{ok:true,username}`. -/
inductive SetResp where
  | unauthenticated
  | invalidInput
  | ok (username : String)
deriving DecidableEq, Repr

/-- `POST /api/set-username`: 401 without a session; 400 when the body's
`username` is falsy, not a string, or shorter than 2; otherwise upsert the
mapping and rewrite the users file. -/
def setUsername (st : ServerState) (ctx : Option AuthCtx) (username : Option JsVal) :
    ServerState × SetResp :=
  match ctx with
  | none => (st, SetResp.unauthenticated)
  | some c =>
    match username with
    | some (JsVal.vstr s) =>
      if s = "" ∨ s.length < 2 then (st, SetResp.invalidInput)
      else
        let users := viewUsers st
        ({ st with usersFile := JFile.good (Users.set users c.email s) }, SetResp.ok s)
    | _ => (st, SetResp.invalidInput)

/-- `GET /api/messages`: the full current message log. -/
def listRecent (st : ServerState) : List Msg := viewMsgs st

/-- A server→client socket event. -/
inductive SEvent where
  | init (msgs : List Msg)
  | message (m : Msg)
  | system (text : String) (ts : Nat)
  | errorMsg (s : String)
deriving DecidableEq, Repr

/-- Emitted events, already resolved to their recipient socket ids. -/
abbrev Emits := List (Nat × SEvent)

/-- The rejection notice sent on a failed admission check. -/
def authInvalidText : String := "Authentication invalid. Please reload and login."

/-- The `io.on('connection')` handler: read the users file, reject unless
email and username are truthy and the stored mapping matches exactly; on
success emit `init` with the full log to the new socket, broadcast the join
to the previously connected sockets, and register the connection. -/
def connect (st : ServerState) (cid : Nat) (email username : Option String)
    (now : Nat) : ServerState × Emits :=
  let users := viewUsers st
  match email, username with
  | some e, some u =>
    if e = "" ∨ u = "" ∨ ¬ (Users.lookup users e = some u) then
      (st, [(cid, SEvent.errorMsg authInvalidText)])
    else
      let messages := viewMsgs st
      ({ st with connected := st.connected ++ [⟨cid, e, u⟩] },
        (cid, SEvent.init messages) ::
          st.connected.map (fun c => (c.cid, SEvent.system (u ++ " joined") now)))
  | _, _ => (st, [(cid, SEvent.errorMsg authInvalidText)])

/-- The message cap `MAX`. -/
def MAX : Nat := 500

/-- `while (messages.length > MAX) messages.shift();` -/
def shiftWhile : List Msg → List Msg
  | [] => []
  | a :: t => if (a :: t).length > MAX then shiftWhile t else a :: t

/-- Strip leading and trailing whitespace from a character list. -/
def trimChars (l : List Char) : List Char :=
  ((l.dropWhile Char.isWhitespace).reverse.dropWhile Char.isWhitespace).reverse

/-- The JS `text.trim()`: the string with leading and trailing whitespace
removed. -/
def jsTrim (s : String) : String := String.mk (trimChars s.data)

/-- The record built by the `sendMessage` handler. -/
def mkMsg (conn : Conn) (s : String) (now : Nat) : Msg :=
  { sender := conn.username, email := conn.email, text := jsTrim s, ts := now }

/-- The `sendMessage` handler: return silently unless the payload is a
truthy string; otherwise append the trimmed record, enforce the cap from the
front, persist the whole log, and emit `message` to every connected socket. -/
def sendMessage (st : ServerState) (conn : Conn) (text : Option JsVal)
    (now : Nat) : ServerState × Emits :=
  match text with
  | some (JsVal.vstr s) =>
    if s = "" then (st, [])
    else
      let messages := viewMsgs st
      let msg := mkMsg conn s now
      let capped := shiftWhile (messages ++ [msg])
      ({ st with messagesFile := JFile.good capped },
        st.connected.map (fun c => (c.cid, SEvent.message msg)))
  | _ => (st, [])

/-- The `disconnect` handler: drop the connection and announce the
departure to the remaining sockets. -/
def disconnectConn (st : ServerState) (cid : Nat) (now : Nat) :
    ServerState × Emits :=
  match st.connected.find? (fun c => c.cid == cid) with
  | some c =>
    let rest := st.connected.filter (fun c2 => !(c2.cid == cid))
    ({ st with connected := rest },
      rest.map (fun c2 => (c2.cid, SEvent.system (c.username ++ " left") now)))
  | none => (st, [])

/-- One inbound event of the single-threaded event loop. -/
inductive Op where
  | connect (cid : Nat) (email username : Option String) (now : Nat)
  | send (cid : Nat) (text : Option JsVal) (now : Nat)
  | disconn (cid : Nat) (now : Nat)
deriving DecidableEq, Repr

/-- Process one event.  A `send` from a socket that was never admitted is
ignored: the `sendMessage` handler is only registered on admitted sockets. -/
def step (st : ServerState) : Op → ServerState × Emits
  | Op.connect cid e u now => connect st cid e u now
  | Op.send cid text now =>
    match st.connected.find? (fun c => c.cid == cid) with
    | some conn => sendMessage st conn text now
    | none => (st, [])
  | Op.disconn cid now => disconnectConn st cid now

/-- Run a sequence of events, collecting all emitted deliveries. -/
def run (st : ServerState) : List Op → ServerState × Emits
  | [] => (st, [])
  | op :: ops =>
    let r1 := step st op
    let r2 := run r1.1 ops
    (r2.1, r1.2 ++ r2.2)

/-- The events a given socket receives, in order. -/
def deliveredTo (cid : Nat) (evs : Emits) : List SEvent :=
  (evs.filter (fun p => p.1 == cid)).map Prod.snd

/-- Whether an event is an `init` replay. -/
def isInit : SEvent → Bool
  | SEvent.init _ => true
  | _ => false

/-- The socket ids of a connection list. -/
def cids (l : List Conn) : List Nat := l.map Conn.cid

/-- Whether an operation is a connection attempt by socket `c`. -/
def connectsCid (c : Nat) : Op → Bool
  | Op.connect cid _ _ _ => cid == c
  | _ => false

/-- A pure sequence of `sendMessage` calls (each by some admitted-time
identity), following the state through. -/
def submitSeq (st : ServerState) : List (Conn × Option JsVal × Nat) → ServerState
  | [] => st
  | (conn, text, now) :: rest => submitSeq (sendMessage st conn text now).1 rest

/-- The records created by the accepted submissions of a sequence, in
submission order. -/
def acceptedRecords : List (Conn × Option JsVal × Nat) → List Msg
  | [] => []
  | (conn, some (JsVal.vstr s), now) :: rest =>
    if s = "" then acceptedRecords rest
    else mkMsg conn s now :: acceptedRecords rest
  | _ :: rest => acceptedRecords rest

/-! General list facts used to reason about the front-truncation loop. -/

theorem rtake_of_length_le {α : Type} {l : List α} {n : Nat} (h : l.length ≤ n) :
    l.rtake n = l := by
  simp [List.rtake, Nat.sub_eq_zero_of_le h]

theorem length_rtake_le {α : Type} (l : List α) (n : Nat) : (l.rtake n).length ≤ n := by
  simp only [List.rtake, List.length_drop]
  omega

theorem rtake_append_rtake {α : Type} (n : Nat) (l r : List α) :
    (l.rtake n ++ r).rtake n = (l ++ r).rtake n := by
  simp only [List.rtake_eq_reverse_take_reverse, List.reverse_append,
    List.reverse_reverse, List.take_append_eq_append_take, List.take_take,
    List.length_reverse, List.length_take]
  have hmin : (n - r.length) ⊓ n = n - r.length := by omega
  rw [hmin]

/-- The `while (length > MAX) shift()` loop keeps exactly the last `MAX`
records. -/
theorem shiftWhile_eq_rtake (l : List Msg) : shiftWhile l = l.rtake MAX := by
  induction l with
  | nil => simp [shiftWhile]
  | cons a t ih =>
    by_cases h : (a :: t).length > MAX
    · rw [shiftWhile, if_pos h, ih]
      simp only [List.rtake, List.length_cons]
      have h2 : t.length + 1 - MAX = (t.length - MAX) + 1 := by
        simp only [List.length_cons] at h
        omega
      rw [h2, List.drop_succ_cons]
    · rw [shiftWhile, if_neg h, rtake_of_length_le (Nat.le_of_not_lt h)]

theorem viewMsgs_set (st : ServerState) (l : List Msg) :
    viewMsgs { st with messagesFile := JFile.good l } = l := rfl

/-- Running a submission sequence from a capped log leaves exactly the last
`MAX` of the old log followed by the accepted records. -/
theorem submitSeq_viewMsgs (inputs : List (Conn × Option JsVal × Nat)) :
    ∀ st : ServerState, (viewMsgs st).length ≤ MAX →
      viewMsgs (submitSeq st inputs)
        = (viewMsgs st ++ acceptedRecords inputs).rtake MAX := by
  induction inputs with
  | nil =>
    intro st h
    rw [submitSeq, acceptedRecords, List.append_nil, rtake_of_length_le h]
  | cons p rest ih =>
    obtain ⟨conn, text, now⟩ := p
    intro st h
    match text with
    | none =>
      rw [submitSeq]
      rw [show (sendMessage st conn none now).1 = st from rfl]
      rw [ih st h]
      rw [show acceptedRecords ((conn, none, now) :: rest) = acceptedRecords rest from rfl]
    | some (JsVal.vother b) =>
      rw [submitSeq]
      rw [show (sendMessage st conn (some (JsVal.vother b)) now).1 = st from rfl]
      rw [ih st h]
      rw [show acceptedRecords ((conn, some (JsVal.vother b), now) :: rest)
            = acceptedRecords rest from rfl]
    | some (JsVal.vstr s) =>
      by_cases hs : s = ""
      · subst hs
        rw [submitSeq]
        rw [show (sendMessage st conn (some (JsVal.vstr "")) now).1 = st from rfl]
        rw [ih st h]
        rw [show acceptedRecords ((conn, some (JsVal.vstr ""), now) :: rest)
              = acceptedRecords rest from rfl]
      · have hstep : (sendMessage st conn (some (JsVal.vstr s)) now).1
            = { st with messagesFile := JFile.good (shiftWhile (viewMsgs st ++ [mkMsg conn s now])) } := by
          rw [sendMessage]
          simp [hs]
        rw [submitSeq, hstep]
        have hcap : (viewMsgs { st with messagesFile := JFile.good (shiftWhile (viewMsgs st ++ [mkMsg conn s now])) }).length ≤ MAX := by
          rw [viewMsgs_set, shiftWhile_eq_rtake]
          exact length_rtake_le _ _
        rw [ih _ hcap, viewMsgs_set, shiftWhile_eq_rtake, rtake_append_rtake]
        rw [List.append_assoc, List.singleton_append]
        have hacc : acceptedRecords ((conn, some (JsVal.vstr s), now) :: rest)
            = mkMsg conn s now :: acceptedRecords rest := by
          rw [acceptedRecords, if_neg hs]
        rw [hacc]

/-- C1: for every sequence of `sendMessage` submissions from the startup
state, the persisted message log never holds more than 500 records, and it
consists of exactly the most recent (at most 500) accepted records, in
submission order. -/
theorem C1_log_cap (inputs : List (Conn × Option JsVal × Nat)) :
    (viewMsgs (submitSeq initState inputs)).length ≤ 500 ∧
    viewMsgs (submitSeq initState inputs) = (acceptedRecords inputs).rtake 500 := by
  have h0 : (viewMsgs initState).length ≤ MAX := by
    rw [show viewMsgs initState = [] from rfl]
    simp [MAX]
  have hmain := submitSeq_viewMsgs inputs initState h0
  rw [show viewMsgs initState = [] from rfl, List.nil_append] at hmain
  refine ⟨?_, hmain⟩
  rw [hmain]
  exact length_rtake_le _ _

/-! Facts about event delivery along a run. -/

theorem mem_deliveredTo (c : Nat) (evs : Emits) (ev : SEvent) :
    ev ∈ deliveredTo c evs ↔ (c, ev) ∈ evs := by
  simp only [deliveredTo, List.mem_map, List.mem_filter]
  constructor
  · rintro ⟨⟨c1, ev1⟩, ⟨hmem, hc⟩, hev⟩
    simp only [beq_iff_eq] at hc
    cases hc
    cases hev
    exact hmem
  · intro hmem
    exact ⟨(c, ev), ⟨hmem, by simp⟩, rfl⟩

theorem deliveredTo_append (c : Nat) (a b : Emits) :
    deliveredTo c (a ++ b) = deliveredTo c a ++ deliveredTo c b := by
  simp [deliveredTo, List.filter_append]

/-! Unfolding equations for the handlers, by constructor shape. -/

theorem connect_eq_none_email (st : ServerState) (cid : Nat) (u : Option String)
    (now : Nat) :
    connect st cid none u now = (st, [(cid, SEvent.errorMsg authInvalidText)]) := by
  cases u <;> rfl

theorem connect_eq_none_username (st : ServerState) (cid : Nat) (e : String)
    (now : Nat) :
    connect st cid (some e) none now = (st, [(cid, SEvent.errorMsg authInvalidText)]) := rfl

theorem connect_eq_some_some (st : ServerState) (cid : Nat) (e u : String) (now : Nat) :
    connect st cid (some e) (some u) now
      = if e = "" ∨ u = "" ∨ ¬ (Users.lookup (viewUsers st) e = some u) then
          (st, [(cid, SEvent.errorMsg authInvalidText)])
        else
          ({ st with connected := st.connected ++ [⟨cid, e, u⟩] },
            (cid, SEvent.init (viewMsgs st)) ::
              st.connected.map (fun c => (c.cid, SEvent.system (u ++ " joined") now))) := rfl

theorem sendMessage_eq_none (st : ServerState) (conn : Conn) (now : Nat) :
    sendMessage st conn none now = (st, []) := rfl

theorem sendMessage_eq_vother (st : ServerState) (conn : Conn) (b : Bool) (now : Nat) :
    sendMessage st conn (some (JsVal.vother b)) now = (st, []) := rfl

theorem sendMessage_eq_vstr (st : ServerState) (conn : Conn) (s : String) (now : Nat) :
    sendMessage st conn (some (JsVal.vstr s)) now
      = if s = "" then (st, [])
        else
          ({ st with messagesFile := JFile.good (shiftWhile (viewMsgs st ++ [mkMsg conn s now])) },
            st.connected.map (fun c => (c.cid, SEvent.message (mkMsg conn s now)))) := rfl

theorem step_eq_connect (st : ServerState) (cid : Nat) (e u : Option String) (now : Nat) :
    step st (Op.connect cid e u now) = connect st cid e u now := rfl

theorem step_send_found (st : ServerState) (cid : Nat) (text : Option JsVal) (now : Nat)
    (conn : Conn) (hf : st.connected.find? (fun c => c.cid == cid) = some conn) :
    step st (Op.send cid text now) = sendMessage st conn text now := by
  rw [step, hf]

theorem step_send_notfound (st : ServerState) (cid : Nat) (text : Option JsVal) (now : Nat)
    (hf : st.connected.find? (fun c => c.cid == cid) = none) :
    step st (Op.send cid text now) = (st, []) := by
  rw [step, hf]

theorem step_eq_disconn (st : ServerState) (cid : Nat) (now : Nat) :
    step st (Op.disconn cid now) = disconnectConn st cid now := rfl

theorem disconn_found (st : ServerState) (cid : Nat) (now : Nat) (c : Conn)
    (hf : st.connected.find? (fun c => c.cid == cid) = some c) :
    disconnectConn st cid now
      = ({ st with connected := st.connected.filter (fun c2 => !(c2.cid == cid)) },
          (st.connected.filter (fun c2 => !(c2.cid == cid))).map
            (fun c2 => (c2.cid, SEvent.system (c.username ++ " left") now))) := by
  rw [disconnectConn, hf]

theorem disconn_notfound (st : ServerState) (cid : Nat) (now : Nat)
    (hf : st.connected.find? (fun c => c.cid == cid) = none) :
    disconnectConn st cid now = (st, []) := by
  rw [disconnectConn, hf]

theorem run_cons (st : ServerState) (op : Op) (ops : List Op) :
    run st (op :: ops)
      = ((run (step st op).1 ops).1, (step st op).2 ++ (run (step st op).1 ops).2) := rfl

theorem run_append (a b : List Op) : ∀ st : ServerState,
    run st (a ++ b)
      = ((run (run st a).1 b).1, (run st a).2 ++ (run (run st a).1 b).2) := by
  induction a with
  | nil => intro st; rfl
  | cons op t ih =>
    intro st
    rw [List.cons_append, run_cons, run_cons, ih, List.append_assoc]

/-- Every event a step emits goes either to the socket attempting to connect
in that very step, or to an already-connected socket; in the latter case it
is never an `init`. -/
theorem step_emit_characterize (st : ServerState) (op : Op) (c : Nat) (ev : SEvent)
    (h : (c, ev) ∈ (step st op).2) :
    connectsCid c op = true ∨ (c ∈ cids st.connected ∧ isInit ev = false) := by
  cases op with
  | connect cid e u now =>
    rw [step_eq_connect] at h
    have hcase : c = cid ∨ (c ∈ cids st.connected ∧ isInit ev = false) := by
      cases e with
      | none =>
        rw [connect_eq_none_email] at h
        simp only [List.mem_singleton, Prod.mk.injEq] at h
        exact Or.inl h.1
      | some e0 =>
        cases u with
        | none =>
          rw [connect_eq_none_username] at h
          simp only [List.mem_singleton, Prod.mk.injEq] at h
          exact Or.inl h.1
        | some u0 =>
          rw [connect_eq_some_some] at h
          by_cases hc : e0 = "" ∨ u0 = "" ∨ ¬ (Users.lookup (viewUsers st) e0 = some u0)
          · rw [if_pos hc] at h
            simp only [List.mem_singleton, Prod.mk.injEq] at h
            exact Or.inl h.1
          · rw [if_neg hc] at h
            simp only [List.mem_cons, List.mem_map, Prod.mk.injEq] at h
            rcases h with ⟨hc1, hev⟩ | ⟨cn, hcn, hc1, hev⟩
            · exact Or.inl hc1
            · refine Or.inr ⟨?_, ?_⟩
              · rw [← hc1]
                exact List.mem_map_of_mem Conn.cid hcn
              · rw [← hev]
                rfl
    rcases hcase with h1 | h1
    · left
      rw [connectsCid, h1]
      exact beq_self_eq_true cid
    · exact Or.inr h1
  | send cid text now =>
    right
    rcases hf : st.connected.find? (fun cn => cn.cid == cid) with _ | conn
    · rw [step_send_notfound st cid text now hf] at h
      simp at h
    · rw [step_send_found st cid text now conn hf] at h
      match text with
      | none => rw [sendMessage_eq_none] at h; simp at h
      | some (JsVal.vother b) => rw [sendMessage_eq_vother] at h; simp at h
      | some (JsVal.vstr s) =>
        rw [sendMessage_eq_vstr] at h
        by_cases hs : s = ""
        · rw [if_pos hs] at h; simp at h
        · rw [if_neg hs] at h
          simp only [List.mem_map, Prod.mk.injEq] at h
          obtain ⟨cn, hcn, hc1, hev⟩ := h
          refine ⟨?_, ?_⟩
          · rw [← hc1]
            exact List.mem_map_of_mem Conn.cid hcn
          · rw [← hev]
            rfl
  | disconn cid now =>
    right
    rw [step_eq_disconn] at h
    rcases hf : st.connected.find? (fun cn => cn.cid == cid) with _ | cfound
    · rw [disconn_notfound st cid now hf] at h
      simp at h
    · rw [disconn_found st cid now cfound hf] at h
      simp only [List.mem_map, Prod.mk.injEq] at h
      obtain ⟨cn, hcn, hc1, hev⟩ := h
      refine ⟨?_, ?_⟩
      · rw [← hc1]
        exact List.mem_map_of_mem Conn.cid (List.mem_of_mem_filter hcn)
      · rw [← hev]
        rfl

/-- A socket that is not connected and is not the subject of the step stays
unconnected. -/
theorem step_connected_sub (st : ServerState) (op : Op) (c : Nat)
    (h1 : c ∉ cids st.connected) (h2 : connectsCid c op = false) :
    c ∉ cids (step st op).1.connected := by
  cases op with
  | connect cid e u now =>
    have hne : cid ≠ c := by
      intro hcc
      rw [connectsCid, hcc] at h2
      simp at h2
    rw [step_eq_connect]
    cases e with
    | none => rw [connect_eq_none_email]; exact h1
    | some e0 =>
      cases u with
      | none => rw [connect_eq_none_username]; exact h1
      | some u0 =>
        rw [connect_eq_some_some]
        by_cases hc : e0 = "" ∨ u0 = "" ∨ ¬ (Users.lookup (viewUsers st) e0 = some u0)
        · rw [if_pos hc]; exact h1
        · rw [if_neg hc]
          intro hmem
          simp only [cids, List.map_append] at hmem
          rcases List.mem_append.mp hmem with hmem | hmem
          · exact h1 hmem
          · simp only [List.map_cons, List.map_nil, List.mem_singleton] at hmem
            exact hne hmem.symm
  | send cid text now =>
    rcases hf : st.connected.find? (fun cn => cn.cid == cid) with _ | conn
    · rw [step_send_notfound st cid text now hf]; exact h1
    · rw [step_send_found st cid text now conn hf]
      match text with
      | none => rw [sendMessage_eq_none]; exact h1
      | some (JsVal.vother b) => rw [sendMessage_eq_vother]; exact h1
      | some (JsVal.vstr s) =>
        rw [sendMessage_eq_vstr]
        by_cases hs : s = ""
        · rw [if_pos hs]; exact h1
        · rw [if_neg hs]; exact h1
  | disconn cid now =>
    rw [step_eq_disconn]
    rcases hf : st.connected.find? (fun cn => cn.cid == cid) with _ | cfound
    · rw [disconn_notfound st cid now hf]; exact h1
    · rw [disconn_found st cid now cfound hf]
      intro hmem
      simp only [cids, List.mem_map] at hmem
      obtain ⟨cn, hcn, heq⟩ := hmem
      exact h1 (heq ▸ List.mem_map_of_mem Conn.cid (List.mem_of_mem_filter hcn))

/-- A socket that never attempts to connect during a run and starts
unconnected receives nothing and ends unconnected. -/
theorem run_quiet (c : Nat) (ops : List Op)
    (hops : ∀ op ∈ ops, connectsCid c op = false) :
    ∀ st : ServerState, c ∉ cids st.connected →
      deliveredTo c (run st ops).2 = [] ∧ c ∉ cids (run st ops).1.connected := by
  induction ops with
  | nil => intro st h1; exact ⟨rfl, h1⟩
  | cons op t ih =>
    intro st h1
    have hop : connectsCid c op = false := hops op (List.mem_cons_self op t)
    have ht : ∀ o ∈ t, connectsCid c o = false := fun o ho => hops o (List.mem_cons_of_mem op ho)
    have hstep1 : deliveredTo c (step st op).2 = [] := by
      rw [deliveredTo, List.filter_eq_nil_iff.mpr, List.map_nil]
      rintro ⟨c1, ev1⟩ hmem hbeq
      simp only [beq_iff_eq] at hbeq
      cases hbeq
      rcases step_emit_characterize st op c ev1 hmem with hh | hh
      · rw [hop] at hh; exact Bool.false_ne_true hh
      · exact h1 hh.1
    have hstep2 : c ∉ cids (step st op).1.connected := step_connected_sub st op c h1 hop
    have hrest := ih ht (step st op).1 hstep2
    rw [run]
    constructor
    · rw [deliveredTo_append, hstep1, hrest.1, List.append_nil]
    · exact hrest.2

/-- During a run in which socket `c` never attempts to connect, no `init`
event is delivered to `c`. -/
theorem run_no_init (c : Nat) (ops : List Op)
    (hops : ∀ op ∈ ops, connectsCid c op = false) :
    ∀ st : ServerState, ∀ ev ∈ deliveredTo c (run st ops).2, isInit ev = false := by
  induction ops with
  | nil => intro st ev hev; simp [run, deliveredTo] at hev
  | cons op t ih =>
    intro st ev hev
    have hop : connectsCid c op = false := hops op (List.mem_cons_self op t)
    have ht : ∀ o ∈ t, connectsCid c o = false := fun o ho => hops o (List.mem_cons_of_mem op ho)
    rw [run, deliveredTo_append] at hev
    rcases List.mem_append.mp hev with hev | hev
    · rcases step_emit_characterize st op c ev ((mem_deliveredTo c _ ev).mp hev) with hh | hh
      · rw [hop] at hh; exact absurd hh Bool.false_ne_true
      · exact hh.2
    · exact ih ht (step st op).1 ev hev

theorem deliveredTo_cons_self (cid : Nat) (ev : SEvent) (rest : Emits) :
    deliveredTo cid ((cid, ev) :: rest) = ev :: deliveredTo cid rest := by
  simp [deliveredTo]

theorem deliveredTo_map_conn (cid : Nat) (l : List Conn) (f : Conn → SEvent)
    (h : cid ∉ cids l) :
    deliveredTo cid (l.map (fun c => (c.cid, f c))) = [] := by
  rw [deliveredTo, List.filter_eq_nil_iff.mpr, List.map_nil]
  rintro ⟨c1, ev1⟩ hmem hbeq
  simp only [List.mem_map] at hmem
  obtain ⟨cn, hcn, heq⟩ := hmem
  simp only [beq_iff_eq] at hbeq
  apply h
  rw [← hbeq]
  rw [show c1 = cn.cid from (congrArg Prod.fst heq).symm]
  exact List.mem_map_of_mem Conn.cid hcn

/-- The admission condition as the specification phrases it: both asserted
identity fields are present (truthy strings) and the stored mapping's value
for the email equals the asserted username exactly. -/
def admissionOk (st : ServerState) (email username : Option String) : Prop :=
  ∃ e u, email = some e ∧ username = some u ∧ e ≠ "" ∧ u ≠ "" ∧
    Users.lookup (viewUsers st) e = some u

/-- C2: a new real-time connection is admitted — registered, sent the `init`
replay and the join broadcast — if and only if both asserted fields are
present and the stored mapping's value for the email equals the asserted
username exactly; otherwise the handler emits exactly an `errorMsg`
rejection, leaves the state unchanged (the socket is never admitted), and,
as long as that socket never attempts to connect again, nothing else — in
particular no `init` — is ever delivered to it. -/
theorem C2_admission (st : ServerState) (cid : Nat) (email username : Option String)
    (now : Nat) (post : List Op)
    (hpost : ∀ op ∈ post, connectsCid cid op = false) :
    (admissionOk st email username →
      ∃ e u, email = some e ∧ username = some u ∧
        connect st cid email username now
          = ({ st with connected := st.connected ++ [⟨cid, e, u⟩] },
              (cid, SEvent.init (viewMsgs st)) ::
                st.connected.map (fun c => (c.cid, SEvent.system (u ++ " joined") now)))) ∧
    (¬ admissionOk st email username →
      connect st cid email username now = (st, [(cid, SEvent.errorMsg authInvalidText)]) ∧
      (cid ∉ cids st.connected →
        deliveredTo cid (run st (Op.connect cid email username now :: post)).2
          = [SEvent.errorMsg authInvalidText])) := by
  constructor
  · rintro ⟨e, u, rfl, rfl, he, hu, hlook⟩
    refine ⟨e, u, rfl, rfl, ?_⟩
    rw [connect_eq_some_some, if_neg]
    simp [he, hu, hlook]
  · intro hnot
    have hreject : connect st cid email username now
        = (st, [(cid, SEvent.errorMsg authInvalidText)]) := by
      cases email with
      | none => exact connect_eq_none_email st cid username now
      | some e =>
        cases username with
        | none => exact connect_eq_none_username st cid e now
        | some u =>
          rw [connect_eq_some_some, if_pos]
          by_contra hc
          push_neg at hc
          exact hnot ⟨e, u, rfl, rfl, hc.1, hc.2.1, hc.2.2⟩
    refine ⟨hreject, ?_⟩
    intro hfresh
    simp only [run_cons, step_eq_connect, hreject, deliveredTo_append]
    rw [(run_quiet cid post hpost st hfresh).1, List.append_nil]
    simp [deliveredTo]

/-- C6: along any run, a socket that is admitted once (and connects only
then) has the whole log at admission time delivered to it as its very first
event, a single `init`; every later event it receives is not an `init` (so
every `message` it receives comes after the replay); and the join
announcement of its admission goes exactly to the sockets connected just
before it, never to the new socket itself. -/
theorem C6_init_replay (st : ServerState) (cid : Nat) (e u : String) (now : Nat)
    (pre post : List Op)
    (hfresh : cid ∉ cids st.connected)
    (hpre : ∀ op ∈ pre, connectsCid cid op = false)
    (hpost : ∀ op ∈ post, connectsCid cid op = false)
    (he : e ≠ "") (hu : u ≠ "")
    (hauth : Users.lookup (viewUsers (run st pre).1) e = some u) :
    ∃ rest,
      deliveredTo cid (run st (pre ++ Op.connect cid (some e) (some u) now :: post)).2
        = SEvent.init (viewMsgs (run st pre).1) :: rest ∧
      (∀ ev ∈ rest, isInit ev = false) ∧
      (connect (run st pre).1 cid (some e) (some u) now).2
        = (cid, SEvent.init (viewMsgs (run st pre).1)) ::
            (run st pre).1.connected.map
              (fun c => (c.cid, SEvent.system (u ++ " joined") now)) ∧
      (∀ p ∈ (run st pre).1.connected.map
          (fun c => (c.cid, SEvent.system (u ++ " joined") now)), p.1 ≠ cid) := by
  have hq := run_quiet cid pre hpre st hfresh
  have hfresh1 : cid ∉ cids (run st pre).1.connected := hq.2
  have hcond : ¬ (e = "" ∨ u = "" ∨
      ¬ (Users.lookup (viewUsers (run st pre).1) e = some u)) := by
    simp [he, hu, hauth]
  have hconnEq : connect (run st pre).1 cid (some e) (some u) now
      = ({ (run st pre).1 with connected := (run st pre).1.connected ++ [⟨cid, e, u⟩] },
          (cid, SEvent.init (viewMsgs (run st pre).1)) ::
            (run st pre).1.connected.map
              (fun c => (c.cid, SEvent.system (u ++ " joined") now))) := by
    rw [connect_eq_some_some, if_neg hcond]
  refine ⟨deliveredTo cid
      (run (connect (run st pre).1 cid (some e) (some u) now).1 post).2, ?_, ?_, ?_, ?_⟩
  · simp only [run_append, run_cons, step_eq_connect, deliveredTo_append, hq.1,
      List.nil_append, hconnEq]
    rw [deliveredTo_cons_self, deliveredTo_map_conn cid _ _ hfresh1,
      List.singleton_append]
  · exact fun ev hev =>
      run_no_init cid post hpost (connect (run st pre).1 cid (some e) (some u) now).1 ev hev
  · exact congrArg Prod.snd hconnEq
  · rintro p hp
    simp only [List.mem_map] at hp
    obtain ⟨cn, hcn, heq⟩ := hp
    intro hbad
    apply hfresh1
    rw [show p.1 = cn.cid from congrArg Prod.fst heq.symm] at hbad
    rw [← hbad]
    exact List.mem_map_of_mem Conn.cid hcn

/-! Facts about the users mapping and the set-username handler. -/

theorem Users.lookup_set_self (us : Users) (e n : String) :
    Users.lookup (Users.set us e n) e = some n := by
  induction us with
  | nil => rw [Users.set, Users.lookup, if_pos rfl]
  | cons p rest ih =>
    obtain ⟨k, v⟩ := p
    rw [Users.set]
    by_cases hk : k = e
    · rw [if_pos hk, Users.lookup, if_pos rfl]
    · rw [if_neg hk, Users.lookup, if_neg hk, ih]

theorem Users.lookup_set_other (us : Users) (e n e2 : String) (h : e2 ≠ e) :
    Users.lookup (Users.set us e n) e2 = Users.lookup us e2 := by
  have hne : ¬ (e = e2) := fun hh => h hh.symm
  induction us with
  | nil =>
    rw [Users.set, Users.lookup, Users.lookup, if_neg hne, Users.lookup]
  | cons p rest ih =>
    obtain ⟨k, v⟩ := p
    rw [Users.set]
    by_cases hk : k = e
    · subst hk
      rw [if_pos rfl, Users.lookup, Users.lookup, if_neg hne, if_neg hne]
    · rw [if_neg hk, Users.lookup, Users.lookup]
      by_cases hk2 : k = e2
      · rw [if_pos hk2, if_pos hk2]
      · rw [if_neg hk2, if_neg hk2, ih]

theorem setUsername_eq_noctx (st : ServerState) (username : Option JsVal) :
    setUsername st none username = (st, SetResp.unauthenticated) := rfl

theorem setUsername_eq_nobody (st : ServerState) (c : AuthCtx) :
    setUsername st (some c) none = (st, SetResp.invalidInput) := rfl

theorem setUsername_eq_vother (st : ServerState) (c : AuthCtx) (b : Bool) :
    setUsername st (some c) (some (JsVal.vother b)) = (st, SetResp.invalidInput) := rfl

theorem setUsername_eq_vstr (st : ServerState) (c : AuthCtx) (s : String) :
    setUsername st (some c) (some (JsVal.vstr s))
      = if s = "" ∨ s.length < 2 then (st, SetResp.invalidInput)
        else ({ st with usersFile := JFile.good (Users.set (viewUsers st) c.email s) },
              SetResp.ok s) := rfl

theorem getCurrentUser_eq_some (st : ServerState) (c : AuthCtx) :
    getCurrentUser st (some c)
      = UserResp.userInfo c.email c.displayName
          (jsOrNull (Users.lookup (viewUsers st) c.email)) := rfl

theorem viewUsers_setfile (st : ServerState) (us : Users) :
    viewUsers { st with usersFile := JFile.good us } = us := rfl

/-- C3: for every authenticated context and every username of length at
least 2, `setUsername` followed by `getCurrentUser` on the same email
reports exactly that username. -/
theorem C3_set_then_get (st : ServerState) (ctx : AuthCtx) (username : String)
    (h : 2 ≤ username.length) :
    getCurrentUser (setUsername st (some ctx) (some (JsVal.vstr username))).1 (some ctx)
      = UserResp.userInfo ctx.email ctx.displayName (some username) := by
  have hne : username ≠ "" := by
    intro hh
    rw [hh] at h
    simp at h
  have hguard : ¬ (username = "" ∨ username.length < 2) := by
    push_neg
    exact ⟨hne, h⟩
  have hstep : (setUsername st (some ctx) (some (JsVal.vstr username))).1
      = { st with usersFile := JFile.good (Users.set (viewUsers st) ctx.email username) } := by
    rw [setUsername_eq_vstr, if_neg hguard]
  rw [hstep, getCurrentUser_eq_some, viewUsers_setfile, Users.lookup_set_self,
    jsOrNull, if_neg hne]

/-- The payloads the `sendMessage` handler silently ignores: an absent
value, a non-string value, or the empty string (falsy in JS). -/
def textIgnored : Option JsVal → Bool
  | some (JsVal.vstr s) => s == ""
  | _ => true

/-- C4 counterexample: the empty string is present and is a string, yet
`sendMessage` is a silent no-op on it, so the claimed boundary "absent or
not a string" is wrong. -/
theorem C4_counterexample :
    (some (JsVal.vstr "") ≠ (none : Option JsVal)) ∧
    isString (some (JsVal.vstr "")) = true ∧
    sendMessage initState ⟨1, "a@x.com", "alice"⟩ (some (JsVal.vstr "")) 0
      = (initState, []) := by
  refine ⟨by decide, rfl, rfl⟩

/-- C4 amended: `sendMessage` is a silent no-op exactly when the payload is
absent, not a string, or the empty string; on every other payload it builds
the trimmed record, persists the capped log, and broadcasts the record. -/
theorem C4_no_op_boundary (st : ServerState) (conn : Conn) (text : Option JsVal)
    (now : Nat) :
    (textIgnored text = true → sendMessage st conn text now = (st, [])) ∧
    (∀ s, text = some (JsVal.vstr s) → s ≠ "" →
      sendMessage st conn text now
        = ({ st with messagesFile := JFile.good (shiftWhile (viewMsgs st ++ [mkMsg conn s now])) },
            st.connected.map (fun c => (c.cid, SEvent.message (mkMsg conn s now))))) := by
  constructor
  · intro hig
    match text with
    | none => exact sendMessage_eq_none st conn now
    | some (JsVal.vother b) => exact sendMessage_eq_vother st conn b now
    | some (JsVal.vstr s) =>
      simp only [textIgnored, beq_iff_eq] at hig
      rw [sendMessage_eq_vstr, if_pos hig]
  · rintro s rfl hs
    rw [sendMessage_eq_vstr, if_neg hs]

/-- C5 counterexample: the whitespace-only submission `"   "` passes the
guard and stores a record whose text is the empty string, refuting the
claimed non-emptiness of every stored record's text. -/
theorem C5_counterexample :
    viewMsgs (sendMessage initState ⟨1, "a@x.com", "alice"⟩ (some (JsVal.vstr "   ")) 0).1
      = [{ sender := "alice", email := "a@x.com", text := "", ts := 0 }] := by
  decide

theorem mem_acceptedRecords (inputs : List (Conn × Option JsVal × Nat)) (m : Msg)
    (h : m ∈ acceptedRecords inputs) :
    ∃ p ∈ inputs, ∃ s, p.2.1 = some (JsVal.vstr s) ∧ s ≠ "" ∧ m = mkMsg p.1 s p.2.2 := by
  induction inputs with
  | nil => rw [acceptedRecords] at h; exact absurd h (List.not_mem_nil m)
  | cons p rest ih =>
    obtain ⟨conn, text, now⟩ := p
    match text with
    | none =>
      rw [show acceptedRecords ((conn, none, now) :: rest) = acceptedRecords rest from rfl] at h
      obtain ⟨q, hq, s, h1, h2, h3⟩ := ih h
      exact ⟨q, List.mem_cons_of_mem _ hq, s, h1, h2, h3⟩
    | some (JsVal.vother b) =>
      rw [show acceptedRecords ((conn, some (JsVal.vother b), now) :: rest)
            = acceptedRecords rest from rfl] at h
      obtain ⟨q, hq, s, h1, h2, h3⟩ := ih h
      exact ⟨q, List.mem_cons_of_mem _ hq, s, h1, h2, h3⟩
    | some (JsVal.vstr s) =>
      by_cases hs : s = ""
      · subst hs
        rw [show acceptedRecords ((conn, some (JsVal.vstr ""), now) :: rest)
              = acceptedRecords rest from rfl] at h
        obtain ⟨q, hq, s2, h1, h2, h3⟩ := ih h
        exact ⟨q, List.mem_cons_of_mem _ hq, s2, h1, h2, h3⟩
      · rw [acceptedRecords, if_neg hs] at h
        rcases List.mem_cons.mp h with h | h
        · exact ⟨(conn, some (JsVal.vstr s), now), List.mem_cons_self _ _, s, rfl, hs, h⟩
        · obtain ⟨q, hq, s2, h1, h2, h3⟩ := ih h
          exact ⟨q, List.mem_cons_of_mem _ hq, s2, h1, h2, h3⟩

/-- C5 amended: every record ever persisted by a submission sequence from
the startup state is the record of an accepted (truthy string) submission,
its text exactly the trimmed submitted text — possibly empty when the
submission was whitespace-only; and every event broadcast by an accepted
submission carries that same trimmed record. -/
theorem C5_trimmed_records (inputs : List (Conn × Option JsVal × Nat)) :
    (∀ m ∈ viewMsgs (submitSeq initState inputs),
      ∃ p ∈ inputs, ∃ s, p.2.1 = some (JsVal.vstr s) ∧ s ≠ "" ∧
        m = mkMsg p.1 s p.2.2 ∧ m.text = jsTrim s) ∧
    (∀ (st : ServerState) (conn : Conn) (s : String) (now : Nat), s ≠ "" →
      ∀ q ∈ (sendMessage st conn (some (JsVal.vstr s)) now).2,
        q.2 = SEvent.message (mkMsg conn s now)) := by
  constructor
  · intro m hm
    have h0 : (viewMsgs initState).length ≤ MAX := by
      rw [show viewMsgs initState = [] from rfl]
      simp [MAX]
    rw [submitSeq_viewMsgs inputs initState h0,
      show viewMsgs initState = [] from rfl, List.nil_append, List.rtake] at hm
    have hacc : m ∈ acceptedRecords inputs := List.drop_subset _ _ hm
    obtain ⟨p, hp, s, h1, h2, h3⟩ := mem_acceptedRecords inputs m hacc
    refine ⟨p, hp, s, h1, h2, h3, ?_⟩
    rw [h3]
    rfl
  · intro st conn s now hs q hq
    rw [sendMessage_eq_vstr, if_neg hs] at hq
    simp only [List.mem_map] at hq
    obtain ⟨cn, hcn, heq⟩ := hq
    exact (congrArg Prod.snd heq).symm

theorem mem_rtake_concat {α : Type} (l : List α) (m : α) (n : Nat) (hn : 1 ≤ n) :
    m ∈ (l ++ [m]).rtake n := by
  rw [List.rtake]
  have hlen : (l ++ [m]).length - n ≤ l.length := by
    rw [List.length_append, List.length_singleton]
    omega
  rw [List.drop_append_of_le_length hlen]
  exact List.mem_append_right _ (List.mem_singleton.mpr rfl)

/-- C7: an accepted submission of string `s` on an admitted connection emits
the record — sender the connection's bound username, text the trimmed input
— to every connected client including the submitter, and stores that same
record in the persisted log. -/
theorem C7_broadcast (st : ServerState) (conn : Conn) (s : String) (now : Nat)
    (hs : s ≠ "") (hconn : conn ∈ st.connected) :
    (sendMessage st conn (some (JsVal.vstr s)) now).2
      = st.connected.map (fun c => (c.cid, SEvent.message (mkMsg conn s now))) ∧
    (conn.cid, SEvent.message (mkMsg conn s now))
      ∈ (sendMessage st conn (some (JsVal.vstr s)) now).2 ∧
    (mkMsg conn s now).sender = conn.username ∧
    (mkMsg conn s now).text = jsTrim s ∧
    mkMsg conn s now ∈ viewMsgs (sendMessage st conn (some (JsVal.vstr s)) now).1 := by
  have hemit : sendMessage st conn (some (JsVal.vstr s)) now
      = ({ st with messagesFile := JFile.good (shiftWhile (viewMsgs st ++ [mkMsg conn s now])) },
          st.connected.map (fun c => (c.cid, SEvent.message (mkMsg conn s now)))) := by
    rw [sendMessage_eq_vstr, if_neg hs]
  refine ⟨congrArg Prod.snd hemit, ?_, rfl, rfl, ?_⟩
  · rw [congrArg Prod.snd hemit]
    exact List.mem_map_of_mem _ hconn
  · rw [congrArg Prod.fst hemit, viewMsgs_set, shiftWhile_eq_rtake]
    exact mem_rtake_concat _ _ MAX (by decide)

/-- C8: `setUsername` answers Unauthenticated (401) when no verified email
is in context, answers InvalidInput (400) when the candidate is absent, not
a string, or shorter than 2 characters, and in every failure case returns
the state exactly unchanged, so every previously stored display name is
untouched. -/
theorem C8_setUsername_failures (st : ServerState) (ctx : Option AuthCtx)
    (username : Option JsVal) :
    (ctx = none → setUsername st ctx username = (st, SetResp.unauthenticated)) ∧
    (∀ c, ctx = some c →
      (username = none ∨ isString username = false ∨
        (∃ s, username = some (JsVal.vstr s) ∧ s.length < 2)) →
      setUsername st ctx username = (st, SetResp.invalidInput)) := by
  constructor
  · rintro rfl
    exact setUsername_eq_noctx st username
  · rintro c rfl hbad
    match username with
    | none => exact setUsername_eq_nobody st c
    | some (JsVal.vother b) => exact setUsername_eq_vother st c b
    | some (JsVal.vstr s) =>
      have hlen : s.length < 2 := by
        rcases hbad with hb | hb | ⟨s2, hs2, hlen2⟩
        · exact absurd hb (by simp)
        · exact absurd hb (by simp [isString])
        · simp only [Option.some.injEq, JsVal.vstr.injEq] at hs2
          rw [hs2]
          exact hlen2
      rw [setUsername_eq_vstr, if_pos (Or.inr hlen)]

/-- Two states whose three observables agree: the parsed-or-defaulted users
mapping, the parsed-or-defaulted message log, and the connection set.  A
state with a malformed store is related to the state with that store
emptied. -/
def EquivStores (s1 s2 : ServerState) : Prop :=
  viewUsers s1 = viewUsers s2 ∧ viewMsgs s1 = viewMsgs s2 ∧ s1.connected = s2.connected

theorem viewMsgs_usersfile (st : ServerState) (f : JFile Users) :
    viewMsgs { st with usersFile := f } = viewMsgs st := rfl

theorem viewUsers_msgsfile (st : ServerState) (f : JFile (List Msg)) :
    viewUsers { st with messagesFile := f } = viewUsers st := rfl

theorem viewUsers_connfile (st : ServerState) (l : List Conn) :
    viewUsers { st with connected := l } = viewUsers st := rfl

theorem viewMsgs_connfile (st : ServerState) (l : List Conn) :
    viewMsgs { st with connected := l } = viewMsgs st := rfl

/-- C9: every operation that reads a persisted store treats two states with
identical observables — in particular a state whose JSON file is malformed
and the state with that file emptied — identically: same responses, same
emitted events, and again related resulting states.  No read failure is
ever surfaced. -/
theorem C9_malformed_reads_as_empty (s1 s2 : ServerState) (h : EquivStores s1 s2) :
    (∀ ctx, getCurrentUser s1 ctx = getCurrentUser s2 ctx) ∧
    listRecent s1 = listRecent s2 ∧
    (∀ ctx un, (setUsername s1 ctx un).2 = (setUsername s2 ctx un).2 ∧
      EquivStores (setUsername s1 ctx un).1 (setUsername s2 ctx un).1) ∧
    (∀ cid e u now, (connect s1 cid e u now).2 = (connect s2 cid e u now).2 ∧
      EquivStores (connect s1 cid e u now).1 (connect s2 cid e u now).1) ∧
    (∀ conn text now,
      (sendMessage s1 conn text now).2 = (sendMessage s2 conn text now).2 ∧
      EquivStores (sendMessage s1 conn text now).1 (sendMessage s2 conn text now).1) := by
  obtain ⟨h1, h2, h3⟩ := h
  refine ⟨?_, ?_, ?_, ?_, ?_⟩
  · intro ctx
    cases ctx with
    | none => rfl
    | some c => rw [getCurrentUser_eq_some, getCurrentUser_eq_some, h1]
  · rw [listRecent, listRecent, h2]
  · intro ctx un
    cases ctx with
    | none =>
      rw [setUsername_eq_noctx, setUsername_eq_noctx]
      exact ⟨rfl, h1, h2, h3⟩
    | some c =>
      match un with
      | none =>
        rw [setUsername_eq_nobody, setUsername_eq_nobody]
        exact ⟨rfl, h1, h2, h3⟩
      | some (JsVal.vother b) =>
        rw [setUsername_eq_vother, setUsername_eq_vother]
        exact ⟨rfl, h1, h2, h3⟩
      | some (JsVal.vstr s) =>
        rw [setUsername_eq_vstr, setUsername_eq_vstr]
        by_cases hg : s = "" ∨ s.length < 2
        · rw [if_pos hg, if_pos hg]
          exact ⟨rfl, h1, h2, h3⟩
        · rw [if_neg hg, if_neg hg]
          refine ⟨rfl, ?_, ?_, h3⟩
          · rw [viewUsers_setfile, viewUsers_setfile, h1]
          · rw [viewMsgs_usersfile, viewMsgs_usersfile]
            exact h2
  · intro cid e u now
    cases e with
    | none =>
      rw [connect_eq_none_email, connect_eq_none_email]
      exact ⟨rfl, h1, h2, h3⟩
    | some e0 =>
      cases u with
      | none =>
        rw [connect_eq_none_username, connect_eq_none_username]
        exact ⟨rfl, h1, h2, h3⟩
      | some u0 =>
        rw [connect_eq_some_some, connect_eq_some_some, h1, h2, h3]
        by_cases hg : e0 = "" ∨ u0 = "" ∨ ¬ (Users.lookup (viewUsers s2) e0 = some u0)
        · rw [if_pos hg, if_pos hg]
          exact ⟨rfl, h1, h2, h3⟩
        · rw [if_neg hg, if_neg hg]
          refine ⟨rfl, ?_, ?_, ?_⟩
          · rw [viewUsers_connfile, viewUsers_connfile]
            exact h1
          · rw [viewMsgs_connfile, viewMsgs_connfile]
            exact h2
          · rfl
  · intro conn text now
    match text with
    | none =>
      rw [sendMessage_eq_none, sendMessage_eq_none]
      exact ⟨rfl, h1, h2, h3⟩
    | some (JsVal.vother b) =>
      rw [sendMessage_eq_vother, sendMessage_eq_vother]
      exact ⟨rfl, h1, h2, h3⟩
    | some (JsVal.vstr s) =>
      rw [sendMessage_eq_vstr, sendMessage_eq_vstr, h2, h3]
      by_cases hg : s = ""
      · rw [if_pos hg, if_pos hg]
        exact ⟨rfl, h1, h2, h3⟩
      · rw [if_neg hg, if_neg hg]
        exact ⟨rfl, h1, rfl, rfl⟩

/-- C10: a successful `setUsername`, made while the user store parses,
answers ok and leaves the stored display name of every email other than the
caller's unchanged. -/
theorem C10_frame (st : ServerState) (ctx : AuthCtx) (s : String) (us : Users)
    (hparse : st.usersFile = JFile.good us) (hlen : 2 ≤ s.length) (other : String)
    (hother : other ≠ ctx.email) :
    (setUsername st (some ctx) (some (JsVal.vstr s))).2 = SetResp.ok s ∧
    Users.lookup (viewUsers (setUsername st (some ctx) (some (JsVal.vstr s))).1) other
      = Users.lookup us other := by
  have hne : s ≠ "" := by
    intro hh
    rw [hh] at hlen
    simp at hlen
  have hguard : ¬ (s = "" ∨ s.length < 2) := by
    push_neg
    exact ⟨hne, hlen⟩
  have hview : viewUsers st = us := by
    rw [viewUsers, hparse]
    rfl
  rw [setUsername_eq_vstr, if_neg hguard]
  refine ⟨rfl, ?_⟩
  show Users.lookup (Users.set (viewUsers st) ctx.email s) other = Users.lookup us other
  rw [hview, Users.lookup_set_other us ctx.email s other hother]

/-! Concrete states used to instantiate the theorems. -/

def connAlice : Conn := ⟨1, "a@x.com", "alice"⟩

def connBob : Conn := ⟨2, "b@x.com", "bob"⟩

def stTwo : ServerState :=
  { usersFile := JFile.good [("a@x.com", "alice"), ("b@x.com", "bob")],
    messagesFile := JFile.good [], connected := [connAlice, connBob] }

def stMal : ServerState :=
  { usersFile := JFile.malformed, messagesFile := JFile.malformed, connected := [] }

theorem C2_admission_witness :
    connect stTwo 7 (some "a@x.com") (some "alice") 0
      = ({ stTwo with connected := stTwo.connected ++ [⟨7, "a@x.com", "alice"⟩] },
          (7, SEvent.init (viewMsgs stTwo)) ::
            stTwo.connected.map (fun c => (c.cid, SEvent.system ("alice" ++ " joined") 0))) ∧
    connect stTwo 8 (some "a@x.com") (some "wrong") 0
      = (stTwo, [(8, SEvent.errorMsg authInvalidText)]) := by
  constructor
  · obtain ⟨e, u, he, hu, heq⟩ :=
      (C2_admission stTwo 7 (some "a@x.com") (some "alice") 0 []
        (fun op hop => absurd hop (List.not_mem_nil op))).1
        ⟨"a@x.com", "alice", rfl, rfl, by decide, by decide, by decide⟩
    simp only [Option.some.injEq] at he hu
    subst he
    subst hu
    exact heq
  · have hadm : ¬ admissionOk stTwo (some "a@x.com") (some "wrong") := by
      rintro ⟨e, u, he, hu, hne1, hne2, hlook⟩
      simp only [Option.some.injEq] at he hu
      subst he
      subst hu
      rw [show Users.lookup (viewUsers stTwo) "a@x.com" = some "alice" from by decide] at hlook
      simp at hlook
    exact ((C2_admission stTwo 8 (some "a@x.com") (some "wrong") 0 []
      (fun op hop => absurd hop (List.not_mem_nil op))).2 hadm).1

theorem C3_set_then_get_witness :
    getCurrentUser
        (setUsername initState (some ⟨"a@x.com", some "A"⟩) (some (JsVal.vstr "alice"))).1
        (some ⟨"a@x.com", some "A"⟩)
      = UserResp.userInfo "a@x.com" (some "A") (some "alice") :=
  C3_set_then_get initState ⟨"a@x.com", some "A"⟩ "alice" (by decide)

theorem C4_no_op_boundary_witness :
    sendMessage stTwo connAlice (some (JsVal.vstr "hi")) 5
      = ({ stTwo with
            messagesFile := JFile.good (shiftWhile (viewMsgs stTwo ++ [mkMsg connAlice "hi" 5])) },
          stTwo.connected.map (fun c => (c.cid, SEvent.message (mkMsg connAlice "hi" 5)))) ∧
    sendMessage stTwo connAlice none 5 = (stTwo, []) := by
  constructor
  · exact (C4_no_op_boundary stTwo connAlice (some (JsVal.vstr "hi")) 5).2 "hi" rfl (by decide)
  · exact (C4_no_op_boundary stTwo connAlice none 5).1 (by decide)

theorem C5_trimmed_records_witness :
    (mkMsg connAlice "  hello  " 5).text = jsTrim "  hello  " ∧
    ((1 : Nat), SEvent.message (mkMsg connAlice "  hello  " 5)).2
      = SEvent.message (mkMsg connAlice "  hello  " 5) := by
  constructor
  · obtain ⟨p, hp, s, h1, h2, h3, h4⟩ :=
      (C5_trimmed_records [(connAlice, some (JsVal.vstr "  hello  "), 5)]).1
        (mkMsg connAlice "  hello  " 5) (by decide)
    simp only [List.mem_singleton] at hp
    subst hp
    simp only [Option.some.injEq, JsVal.vstr.injEq] at h1
    subst h1
    exact h4
  · exact (C5_trimmed_records []).2 stTwo connAlice "  hello  " 5 (by decide)
      (1, SEvent.message (mkMsg connAlice "  hello  " 5)) (by decide)

theorem C6_init_replay_witness :
    (connect (run stTwo []).1 7 (some "a@x.com") (some "alice") 3).2
      = (7, SEvent.init (viewMsgs (run stTwo []).1)) ::
          (run stTwo []).1.connected.map
            (fun c => (c.cid, SEvent.system ("alice" ++ " joined") 3)) := by
  obtain ⟨rest, h1, h2, h3, h4⟩ := C6_init_replay stTwo 7 "a@x.com" "alice" 3 [] []
    (by decide)
    (fun op hop => absurd hop (List.not_mem_nil op))
    (fun op hop => absurd hop (List.not_mem_nil op))
    (by decide) (by decide) (by decide)
  exact h3

theorem C7_broadcast_witness :
    (sendMessage stTwo connAlice (some (JsVal.vstr "  hello  ")) 9).2
      = stTwo.connected.map (fun c => (c.cid, SEvent.message (mkMsg connAlice "  hello  " 9))) ∧
    (connAlice.cid, SEvent.message (mkMsg connAlice "  hello  " 9))
      ∈ (sendMessage stTwo connAlice (some (JsVal.vstr "  hello  ")) 9).2 ∧
    (mkMsg connAlice "  hello  " 9).sender = connAlice.username ∧
    (mkMsg connAlice "  hello  " 9).text = jsTrim "  hello  " ∧
    mkMsg connAlice "  hello  " 9
      ∈ viewMsgs (sendMessage stTwo connAlice (some (JsVal.vstr "  hello  ")) 9).1 :=
  C7_broadcast stTwo connAlice "  hello  " 9 (by decide) (by decide)

theorem C8_setUsername_failures_witness :
    setUsername initState none (some (JsVal.vstr "alice"))
      = (initState, SetResp.unauthenticated) ∧
    setUsername initState (some ⟨"a@x.com", none⟩) (some (JsVal.vstr "x"))
      = (initState, SetResp.invalidInput) := by
  constructor
  · exact (C8_setUsername_failures initState none (some (JsVal.vstr "alice"))).1 rfl
  · exact (C8_setUsername_failures initState (some ⟨"a@x.com", none⟩)
      (some (JsVal.vstr "x"))).2 ⟨"a@x.com", none⟩ rfl
      (Or.inr (Or.inr ⟨"x", rfl, by decide⟩))

theorem C9_malformed_reads_as_empty_witness :
    getCurrentUser stMal (some ⟨"a@x.com", none⟩)
      = getCurrentUser initState (some ⟨"a@x.com", none⟩) ∧
    listRecent stMal = listRecent initState := by
  have h := C9_malformed_reads_as_empty stMal initState ⟨rfl, rfl, rfl⟩
  exact ⟨h.1 (some ⟨"a@x.com", none⟩), h.2.1⟩

theorem C10_frame_witness :
    (setUsername stTwo (some ⟨"a@x.com", none⟩) (some (JsVal.vstr "alicia"))).2
      = SetResp.ok "alicia" ∧
    Users.lookup
        (viewUsers (setUsername stTwo (some ⟨"a@x.com", none⟩) (some (JsVal.vstr "alicia"))).1)
        "b@x.com"
      = Users.lookup [("a@x.com", "alice"), ("b@x.com", "bob")] "b@x.com" :=
  C10_frame stTwo ⟨"a@x.com", none⟩ "alicia" [("a@x.com", "alice"), ("b@x.com", "bob")]
    rfl (by decide) "b@x.com" (by decide)

end RenderChat
